import Mathlib

/-!
Shallow embedding of the conversational-context engine of the twilio-be
repository: the conversation history store (`createConversationHistoryService`),
the knowledge-base retriever (`createKnowledgeBaseService`), the content
normalizer (`normalizeAssistantReply`) and the reply orchestrator
(`generateReply` in the OpenAI service).  JavaScript machine state is made
explicit: the mutable per-conversation array map becomes a function
`String → Option (List ChatMessage)`, in-place `splice` mutation becomes list
surgery returning the new list, async calls that can throw become `Except`
values supplied by the caller as oracles, and the tokenizer is abstracted to
its only observed behaviour, `encode(text).length : Nat`.
-/

namespace Twilio

/-- Message roles, from the OpenAI chat message union used by the service. -/
inductive Role
  | system
  | user
  | assistant
deriving DecidableEq

/-- One part of a structured (array-valued) message content.  `countTokens`
only reads text-typed parts and ignores every other part kind. -/
inductive ContentPart
  | text (s : String)
  | nonText
deriving DecidableEq

/-- Message content: a plain string, a structured part list, or absent
(`countTokens` contributes zero for the latter). -/
inductive MsgContent
  | str (s : String)
  | parts (ps : List ContentPart)
  | null
deriving DecidableEq

/-- A chat message as the history service stores it. -/
structure ChatMessage where
  role : Role
  content : MsgContent
deriving DecidableEq

/-- The tokenizer adapter: only `tokenizer.encode(text).length` is observed
by the source, so the model is the token-count function itself. -/
abbrev Tokenizer := String → Nat

/-- Token count of one structured content part (text parts only). -/
def partTokens (tok : Tokenizer) : ContentPart → Nat
  | .text s => tok s
  | .nonText => 0

/-- Token count of one message content, mirroring the `reduce` in
`countTokens` of the conversation history service. -/
def contentTokens (tok : Tokenizer) : MsgContent → Nat
  | .str s => tok s
  | .parts ps => ps.foldl (fun innerTotal p => innerTotal + partTokens tok p) 0
  | .null => 0

/-- `countTokens(messages)` of the conversation history service. -/
def countTokens (tok : Tokenizer) (messages : List ChatMessage) : Nat :=
  messages.foldl (fun total m => total + contentTokens tok m.content) 0

/-- The `while` loop of `trimContext`, with explicit fuel.  Each iteration
removes the element at index 1 (`messages.splice(1, 1)`), so the loop runs at
most `messages.length` times; calling it with `fuel = messages.length` is
exactly the source loop.  The Boolean accumulator is the `trimmed` flag. -/
def trimContextGo (tok : Tokenizer) (tokenLimit : Nat) :
    Nat → List ChatMessage → Bool → Bool × List ChatMessage
  | 0, messages, trimmed => (trimmed, messages)
  | fuel + 1, messages, trimmed =>
    if tokenLimit < countTokens tok messages ∧ 1 < messages.length then
      trimContextGo tok tokenLimit fuel (messages.eraseIdx 1) true
    else
      (trimmed, messages)

/-- `trimContext(messages)` of the conversation history service: while the
total token count exceeds the budget and more than one message remains, remove
the message at index 1.  Returns the `trimmed` flag together with the final
list (the source mutates the array in place; the model returns the new
value). -/
def trimContext (tok : Tokenizer) (tokenLimit : Nat)
    (messages : List ChatMessage) : Bool × List ChatMessage :=
  trimContextGo tok tokenLimit messages.length messages false

/-- The per-process conversation map (`Map<string, ChatMessage[]>`). -/
abbrev Store := String → Option (List ChatMessage)

/-- The system prompt message each conversation is seeded with. -/
def systemMessage (systemPrompt : String) : ChatMessage :=
  { role := .system, content := .str systemPrompt }

/-- The initial, empty conversation map. -/
def emptyStore : Store := fun _ => none

/-- Functional update of the conversation map. -/
def storeSet (s : Store) (conversationId : String) (l : List ChatMessage) : Store :=
  fun j => if j = conversationId then some l else s j

/-- `ensureConversation(conversationId)`: return the stored conversation, or
seed and store a fresh one holding only the system prompt. -/
def ensureConversation (systemPrompt : String) (s : Store)
    (conversationId : String) : List ChatMessage × Store :=
  match s conversationId with
  | some existing => (existing, s)
  | none =>
    ([systemMessage systemPrompt],
      storeSet s conversationId [systemMessage systemPrompt])

/-- One operation against the conversation history store.  `trimConversation`
is `trimContext(getMessages(id))`, the way every caller in the repository
invokes it: the in-place `splice` mutation of the returned live array becomes
an explicit store update. -/
inductive HistoryOp
  | getMessages (id : String)
  | addMessage (id : String) (m : ChatMessage)
  | trimConversation (id : String)
  | resetConversation (id : String)

/-- Interpreter for one store operation. -/
def applyOp (tok : Tokenizer) (tokenLimit : Nat) (systemPrompt : String)
    (s : Store) : HistoryOp → Store
  | .getMessages id => (ensureConversation systemPrompt s id).2
  | .addMessage id m =>
    let es := ensureConversation systemPrompt s id
    storeSet es.2 id (es.1 ++ [m])
  | .trimConversation id =>
    let es := ensureConversation systemPrompt s id
    storeSet es.2 id (trimContext tok tokenLimit es.1).2
  | .resetConversation id => storeSet s id [systemMessage systemPrompt]

/-- Run a finite sequence of store operations from the empty map. -/
def runOps (tok : Tokenizer) (tokenLimit : Nat) (systemPrompt : String)
    (ops : List HistoryOp) : Store :=
  ops.foldl (applyOp tok tokenLimit systemPrompt) emptyStore

/-- Invariant of the conversation map: every stored conversation is nonempty
and starts with the system prompt. -/
def storeInv (systemPrompt : String) (s : Store) : Prop :=
  ∀ id l, s id = some l →
    1 ≤ l.length ∧ l.head? = some (systemMessage systemPrompt)

/-- `KnowledgeEntry` of the knowledge base and the content normalizer: a
retrieved document title and its (possibly absent) source URL. -/
structure KnowledgeEntry where
  title : String
  source : Option String
deriving DecidableEq

/-- Whitespace test for the JavaScript string operations modelled below. -/
def isWsChar (c : Char) : Bool := c.isWhitespace

/-- JavaScript `String.prototype.trim` on an explicit character list. -/
def trimL (cs : List Char) : List Char :=
  ((cs.dropWhile isWsChar).reverse.dropWhile isWsChar).reverse

/-- JavaScript `value.trim()`. -/
def jsTrim (s : String) : String := String.mk (trimL s.toList)

/-- JavaScript `value.startsWith(p)`. -/
def startsWithStr (p s : String) : Bool := p.toList.isPrefixOf s.toList

/-- `isHttpUrl` of the content normalizer. -/
def isHttpUrl (value : String) : Bool :=
  startsWithStr "http://" value || startsWithStr "https://" value

/-- The candidate-URL queue built at the top of `normalizeAssistantReply`:
string-typed sources, trimmed, kept in retrieval order, filtered to
`http(s)://`. -/
def candidateUrls (entries : List KnowledgeEntry) : List String :=
  ((entries.filterMap (fun e => e.source)).map jsTrim).filter isHttpUrl

/-- A character the URL regex `[^\s)]+` accepts: not whitespace, not `)`. -/
def urlRunChar (c : Char) : Bool := !(c.isWhitespace || c == ')')

/-- Leftmost match of the regex `(https?:\/\/[^\s)]+|www\.[^\s)]+)` used by
`extractFirstUrl`: at each position try the `http://` / `https://` / `www.`
alternatives, each requiring at least one following run character. -/
def extractFirstUrlGo : List Char → Option (List Char)
  | [] => none
  | c :: cs =>
    if "http://".toList.isPrefixOf (c :: cs) then
      let run := ((c :: cs).drop 7).takeWhile urlRunChar
      if run.isEmpty then extractFirstUrlGo cs
      else some ("http://".toList ++ run)
    else if "https://".toList.isPrefixOf (c :: cs) then
      let run := ((c :: cs).drop 8).takeWhile urlRunChar
      if run.isEmpty then extractFirstUrlGo cs
      else some ("https://".toList ++ run)
    else if "www.".toList.isPrefixOf (c :: cs) then
      let run := ((c :: cs).drop 4).takeWhile urlRunChar
      if run.isEmpty then extractFirstUrlGo cs
      else some ("www.".toList ++ run)
    else extractFirstUrlGo cs

/-- `extractFirstUrl` of the content normalizer: search the target for an
embedded absolute URL, prefixing `https://` onto a bare `www.` match. -/
def extractFirstUrl (value : String) : Option String :=
  match extractFirstUrlGo value.toList with
  | none => none
  | some url =>
    if "www.".toList.isPrefixOf url then some (String.mk ("https://".toList ++ url))
    else some (String.mk url)

/-- `resolveUrl(link, candidates)` of the content normalizer.  The source
mutates the candidate array with `shift()`; the model returns the resolved
URL (or `none`) together with the remaining queue. -/
def resolveUrl (link : String) (candidates : List String) :
    Option String × List String :=
  let trimmed := jsTrim link
  if trimmed.length == 0 || trimmed == "#" || startsWithStr "#" trimmed then
    match candidates with
    | [] => (none, [])
    | c :: rest => (some c, rest)
  else if isHttpUrl trimmed then
    (some trimmed, candidates)
  else if startsWithStr "www." trimmed then
    (some ("https://" ++ trimmed), candidates)
  else
    match extractFirstUrl trimmed with
    | some inlineUrl => (some inlineUrl, candidates)
    | none => (none, candidates)

/-- JavaScript `label.replace(/[\s\n]+/g, " ")`: collapse each maximal
whitespace run to a single space.  The flag records whether the previous
character was part of a whitespace run. -/
def collapseWsGo : Bool → List Char → List Char
  | _, [] => []
  | prevWs, c :: cs =>
    if isWsChar c then
      if prevWs then collapseWsGo true cs
      else ' ' :: collapseWsGo true cs
    else c :: collapseWsGo false cs

/-- A character of the class `[).,;:!?]` stripped from URL tails. -/
def trailingPunctChar (c : Char) : Bool :=
  c == ')' || c == '.' || c == ',' || c == ';' || c == ':' || c == '!' || c == '?'

/-- `stripTrailingPunctuation` of the content normalizer. -/
def stripTrailingPunctuation (value : String) : String :=
  String.mk ((value.toList.reverse.dropWhile trailingPunctChar).reverse)

/-- `formatLink(label, url)` of the content normalizer. -/
def formatLink (label url : String) : String :=
  let cleanedLabel := jsTrim (String.mk (collapseWsGo false (jsTrim label).toList))
  if cleanedLabel.length == 0 then url
  else cleanedLabel ++ "\n" ++ stripTrailingPunctuation url

/-- Split a character list at the first occurrence of `stop`, returning the
characters before it and the characters after it; `none` when absent.  This
is the deterministic reading of the regex fragments `[^\]]+\]` and
`[^)]+\)`. -/
def splitAtChar (stop : Char) : List Char → Option (List Char × List Char)
  | [] => none
  | c :: cs =>
    if c == stop then some ([], cs)
    else
      match splitAtChar stop cs with
      | none => none
      | some (pre, post) => some (c :: pre, post)

/-- Try to match the markdown link regex `\[([^\]]+)\]\(([^)]+)\)` anchored
at the start of the list.  On success, return the label, the target and the
remainder after the match. -/
def tryLinkAt : List Char → Option ((List Char × List Char) × List Char)
  | '[' :: cs =>
    match splitAtChar ']' cs with
    | none => none
    | some (label, afterLabel) =>
      if label.isEmpty then none
      else
        match afterLabel with
        | '(' :: cs2 =>
          match splitAtChar ')' cs2 with
          | none => none
          | some (target, rest) =>
            if target.isEmpty then none else some ((label, target), rest)
        | _ => none
  | _ => none

/-- All matches of the markdown link regex with the `g` flag, leftmost first,
each search resuming after the previous match, with explicit fuel (the input
length suffices, since every step consumes at least one character). -/
def findMatchesGo : Nat → List Char → List (List Char × List Char)
  | 0, _ => []
  | _ + 1, [] => []
  | fuel + 1, c :: cs =>
    match tryLinkAt (c :: cs) with
    | some ((label, target), rest) => (label, target) :: findMatchesGo fuel rest
    | none => findMatchesGo fuel cs

/-- The matched substring `[label](target)` rebuilt from its pieces. -/
def fullMatchChars (label target : List Char) : List Char :=
  '[' :: (label ++ ']' :: '(' :: (target ++ [')']))

/-- JavaScript `normalized.replace(fullMatch, replacement)` with a string
pattern: replace the first literal occurrence only. -/
def replaceFirstL (pat repl : List Char) : List Char → List Char
  | [] => []
  | c :: cs =>
    if pat.isPrefixOf (c :: cs) then repl ++ (c :: cs).drop pat.length
    else c :: replaceFirstL pat repl cs

/-- The replacement loop of `normalizeAssistantReply`: for each collected
match, resolve the target against the shared candidate queue and substitute
the replacement for the first literal occurrence of the matched text. -/
def applyMatches : List (List Char × List Char) → List Char → List String → List Char
  | [], normalized, _ => normalized
  | (label, target) :: rest, normalized, candidates =>
    let res := resolveUrl (String.mk target) candidates
    let replacement : List Char :=
      match res.1 with
      | some url => (formatLink (String.mk label) url).toList
      | none => (jsTrim (String.mk label)).toList
    applyMatches rest (replaceFirstL (fullMatchChars label target) replacement normalized) res.2

/-- `normalizeAssistantReply(content, knowledgeEntries)` of the content
normalizer: fast path when no `[` or `)` occurs or the regex never matches,
otherwise rewrite every markdown link occurrence. -/
def normalizeAssistantReply (content : String) (knowledgeEntries : List KnowledgeEntry) : String :=
  if !(content.toList.contains '[') || !(content.toList.contains ')') then content
  else
    let ms := findMatchesGo content.toList.length content.toList
    if ms.isEmpty then content
    else String.mk (applyMatches ms content.toList (candidateUrls knowledgeEntries))

/-- `KnowledgeContext`: the system message carrying the rendered knowledge
block, plus the structured entries used later for link repair. -/
structure KnowledgeContext where
  message : ChatMessage
  entries : List KnowledgeEntry
deriving DecidableEq

/-- Per-document metadata returned by the vector store; each field is present
only when the stored value is string-typed, matching the
`typeof metadata.title === "string"` guards. -/
structure Metadata where
  title : Option String
  source : Option String
deriving DecidableEq

/-- One vector-store query result batch (`documents[0]`, `metadatas[0]`,
`distances[0]`).  A `none` document is a null entry.  Distances arrive as
IEEE doubles and are only ever rendered through `toFixed(4)`; since
floating-point formatting is outside the embedding, the model carries the
already-rendered score text (`none` when the value is not a number). -/
structure QueryResult where
  documents : List (Option String)
  metadatas : List (Option Metadata)
  distances : List (Option String)
deriving DecidableEq

/-- `(Array.isArray(metadatas) ? metadatas[index] : null) ?? {}`: the
metadata at an index, defaulting to the empty record. -/
def metadataAt (metadatas : List (Option Metadata)) (i : Nat) : Metadata :=
  (metadatas.getD i none).getD { title := none, source := none }

/-- The ` | score: ...` fragment, present exactly when the distance at that
index is a number. -/
def scoreFragment : Option String → String
  | some rendered => " | score: " ++ rendered
  | none => ""

/-- `truncate(value, limit)` of the knowledge base service.  Note the source
computes `sliceLimit = Math.max(0, limit - 3)`, which is exactly truncated
natural subtraction. -/
def truncate (value : String) (limit : Nat) : String :=
  if value.length ≤ limit then value
  else String.mk (value.toList.take (limit - 3)) ++ "..."

/-- The `documents.forEach` loop of `buildKnowledgeContext`: skip null and
empty documents; for each usable document push the rendered entry line and
the structured `{title, source}` pair, in result order. -/
def buildEntriesGo (limit : Nat) (metadatas : List (Option Metadata))
    (distances : List (Option String)) :
    Nat → List (Option String) → List String × List KnowledgeEntry
  | _, [] => ([], [])
  | i, doc :: rest =>
    let tail := buildEntriesGo limit metadatas distances (i + 1) rest
    match doc with
    | none => tail
    | some d =>
      if d = "" then tail
      else
        let md := metadataAt metadatas i
        let title := md.title.getD ("snippet-" ++ Nat.repr (i + 1))
        let source := md.source.getD "unknown"
        let frag := scoreFragment (distances.getD i none)
        (("- (" ++ title ++ " | source: " ++ source ++ frag ++ ") " ++ truncate d limit) :: tail.1,
          { title := title, source := some source } :: tail.2)

/-- Number of usable (non-null, nonempty) documents in a result batch. -/
def usableDocCount (docs : List (Option String)) : Nat :=
  (docs.filter (fun d =>
    match d with
    | some s => !(s == "")
    | none => false)).length

/-- Rendered entry lines as the specification words them: each usable
document body is kept unchanged when within the per-document limit, and is
otherwise cut to `limit - 3` characters with an ellipsis marker appended. -/
def specEntriesFrom (limit : Nat) (metadatas : List (Option Metadata))
    (distances : List (Option String)) :
    Nat → List (Option String) → List String
  | _, [] => []
  | i, doc :: rest =>
    let tail := specEntriesFrom limit metadatas distances (i + 1) rest
    match doc with
    | none => tail
    | some d =>
      if d = "" then tail
      else
        let md := metadataAt metadatas i
        let title := md.title.getD ("snippet-" ++ Nat.repr (i + 1))
        let source := md.source.getD "unknown"
        let frag := scoreFragment (distances.getD i none)
        let body := if d.length ≤ limit then d
          else String.mk (d.toList.take (limit - 3)) ++ "..."
        ("- (" ++ title ++ " | source: " ++ source ++ frag ++ ") " ++ body) :: tail

/-- `buildKnowledgeContext(conversationId, userMessage)` of the knowledge
base service, as a pure function of its three awaited collaborators: the
lazily-resolved collection handle (`none` when resolution failed), the
embedding call (`Except.error` when it threw) and the vector-store query
(`Except.error` when it threw).  Every failure path returns `none` instead of
propagating, exactly as the source catches and logs. -/
def buildKnowledgeContext (chromaMaxResults chromaMaxCharacters : Nat)
    (collection : Option Unit)
    (embedResult : Except String (List (List Int)))
    (queryResult : Except String QueryResult) : Option KnowledgeContext :=
  match collection with
  | none => none
  | some _ =>
    match embedResult with
    | .error _ => none
    | .ok queryEmbeddings =>
      if queryEmbeddings.length = 0 then none
      else
        match queryResult with
        | .error _ => none
        | .ok qr =>
          let perDocumentLimit :=
            max 200 (chromaMaxCharacters / max 1 chromaMaxResults)
          let built := buildEntriesGo perDocumentLimit qr.metadatas qr.distances 0 qr.documents
          if built.1.length = 0 then none
          else
            some {
              entries := built.2,
              message := {
                role := .system,
                content := .str ("Knowledge base context:\n" ++ String.intercalate "\n" built.1) } }

/-- The message object the completion response carries
(`choices[0].message`); only `content` is read by the service. -/
structure RespMessage where
  content : Option String
deriving DecidableEq

/-- One choice of the completion response. -/
structure Choice where
  message : RespMessage
deriving DecidableEq

/-- The completion response: a choice list plus optional
`usage.total_tokens`. -/
structure CompletionResponse where
  choices : List Choice
  usage : Option Nat
deriving DecidableEq

/-- `extractResponseMessage`: read `choices[0].message` and demand truthy
content (`!responseMessage?.content` also rejects the empty string).  The
model returns the usable content, `none` standing for the thrown
`No content returned from OpenAI response` error. -/
def extractContent (response : CompletionResponse) : Option String :=
  match response.choices.head? with
  | none => none
  | some choice =>
    match choice.message.content with
    | none => none
    | some s => if s = "" then none else some s

/-- JavaScript `array.splice(start, 0, item)`: insert `item` at `start`,
clamping a start beyond the end to an append. -/
def spliceInsert (item : ChatMessage) : Nat → List ChatMessage → List ChatMessage
  | 0, l => item :: l
  | _ + 1, [] => [item]
  | n + 1, c :: l => c :: spliceInsert item n l

/-- `applyKnowledgeContext(requestMessages, knowledgeContext)` of the OpenAI
service: splice the knowledge message in immediately before the last message;
if the spliced set exceeds the token budget, remove it again and report not
applied.  The removal uses `indexOf` on the freshly created message object —
JavaScript reference identity — so it removes exactly the element inserted at
the splice position. -/
def applyKnowledgeContext (tok : Tokenizer) (tokenLimit : Nat)
    (requestMessages : List ChatMessage)
    (knowledgeContext : Option KnowledgeContext) : List ChatMessage × Bool :=
  match knowledgeContext with
  | none => (requestMessages, false)
  | some k =>
    let messagesWithKnowledge :=
      spliceInsert k.message (requestMessages.length - 1) requestMessages
    if tokenLimit < countTokens tok messagesWithKnowledge then
      (messagesWithKnowledge.eraseIdx (requestMessages.length - 1), false)
    else
      (messagesWithKnowledge, true)

/-- `calculateTokenBreakdown` of the OpenAI service.  JavaScript computes
`Math.max(0, total - knowledge - user)` over signed numbers; truncated
natural subtraction `total - knowledge - user` is the same clamp. -/
def calculateTokenBreakdown (tok : Tokenizer) (requestMessages : List ChatMessage)
    (knowledgeApplied : Bool) (knowledgeContext : Option KnowledgeContext) :
    Nat × Nat × Nat × Nat :=
  let totalRequestTokens := countTokens tok requestMessages
  let knowledgeTokens :=
    match knowledgeContext with
    | some k => if knowledgeApplied then countTokens tok [k.message] else 0
    | none => 0
  let userTokens :=
    countTokens tok [requestMessages.getLastD { role := .user, content := .str "" }]
  (totalRequestTokens, knowledgeTokens, userTokens,
    totalRequestTokens - knowledgeTokens - userTokens)

/-- The user message `addUserMessage` appends. -/
def userMessage (message : String) : ChatMessage :=
  { role := .user, content := .str message }

/-- The stored conversation right after step 1–2 of `generateReply`: the
incoming user message appended, then the pre-call trim.  The source appends
through `addMessage` onto the live array returned by `getMessages` and trims
it in place, so this is also the value read on every later step. -/
def storedAfterUser (tok : Tokenizer) (tokenLimit : Nat)
    (stored0 : List ChatMessage) (message : String) : List ChatMessage :=
  (trimContext tok tokenLimit (stored0 ++ [userMessage message])).2

/-- The scalar payload of a successful `generateReply`. -/
structure GenOk where
  response : String
  totalTokens : Nat
  usageTokens : Option Nat
  requestTokens : Nat
  conversationTokens : Nat
  knowledgeTokens : Nat
  userTokens : Nat
deriving DecidableEq

/-- Decidable equality for `Except`, so concrete outcomes can be settled by
evaluation. -/
instance exceptDecEq {ε α : Type} [DecidableEq ε] [DecidableEq α] :
    DecidableEq (Except ε α) := fun a b =>
  match a, b with
  | .error e, .error f =>
    if h : e = f then isTrue (by rw [h])
    else isFalse (by intro hx; cases hx; exact h rfl)
  | .error _, .ok _ => isFalse (by intro hx; cases hx)
  | .ok x, .ok y =>
    if h : x = y then isTrue (by rw [h])
    else isFalse (by intro hx; cases hx; exact h rfl)
  | .ok _, .error _ => isFalse (by intro hx; cases hx)

/-- Observable outcome of one `generateReply` turn: the request-local
snapshot after the pre-trim, the final request set sent to the completion
API, the verified `knowledgeApplied` flag, the stored conversation after the
turn, and the returned value or re-thrown error. -/
structure GenerateReplyOutcome where
  requestMessages : List ChatMessage
  finalRequest : List ChatMessage
  knowledgeApplied : Bool
  stored : List ChatMessage
  result : Except String GenOk
deriving DecidableEq

/-- `generateReply(conversationId, message)` of the OpenAI service as a pure
function of the conversation stored for that id, the incoming message, the
knowledge-retrieval outcome (an oracle: `buildKnowledgeContext` never
throws), and the completion call outcome (`Except.error` when the API call
threw; `callOpenAI` logs and re-throws the same error).  Steps in source
order: append the user message, pre-trim the stored history, snapshot it,
splice knowledge, budget-check, trim the request copy, compute the token
breakdown, call the API, extract and normalize the content, append the
assistant message to the stored history, final trim, return. -/
def generateReply (tok : Tokenizer) (tokenLimit : Nat)
    (stored0 : List ChatMessage) (message : String)
    (knowledgeContext : Option KnowledgeContext)
    (completion : Except String CompletionResponse) : GenerateReplyOutcome :=
  let messages := storedAfterUser tok tokenLimit stored0 message
  let applied := applyKnowledgeContext tok tokenLimit messages knowledgeContext
  let finalRequestMessages := (trimContext tok tokenLimit applied.1).2
  let verifiedKnowledgeApplied :=
    applied.2 && (match knowledgeContext with
      | some k => finalRequestMessages.contains k.message
      | none => false)
  let breakdown :=
    calculateTokenBreakdown tok finalRequestMessages verifiedKnowledgeApplied knowledgeContext
  let knowledgeEntries := (knowledgeContext.map (fun k => k.entries)).getD []
  match completion with
  | .error e =>
    { requestMessages := messages, finalRequest := finalRequestMessages,
      knowledgeApplied := verifiedKnowledgeApplied, stored := messages,
      result := .error e }
  | .ok response =>
    match extractContent response with
    | none =>
      { requestMessages := messages, finalRequest := finalRequestMessages,
        knowledgeApplied := verifiedKnowledgeApplied, stored := messages,
        result := .error "No content returned from OpenAI response" }
    | some content =>
      let normalizedContent := normalizeAssistantReply content knowledgeEntries
      let storedFinal := (trimContext tok tokenLimit
        (messages ++ [{ role := .assistant, content := .str normalizedContent }])).2
      { requestMessages := messages, finalRequest := finalRequestMessages,
        knowledgeApplied := verifiedKnowledgeApplied, stored := storedFinal,
        result := .ok {
          response := normalizedContent,
          totalTokens := countTokens tok storedFinal,
          usageTokens := response.usage,
          requestTokens := breakdown.1,
          conversationTokens := breakdown.2.2.2,
          knowledgeTokens := breakdown.2.1,
          userTokens := breakdown.2.2.1 } }

end Twilio

namespace Twilio

/-- Generic helper: the tail the trim loop keeps is a suffix, so a nonempty
drop has the same last element. -/
theorem getLast?_drop_of_lt {α : Type} :
    ∀ (l : List α) (k : Nat), k < l.length → (l.drop k).getLast? = l.getLast? := by
  intro l
  induction l with
  | nil => intro k h; simp at h
  | cons c t ih =>
    intro k h
    cases k with
    | zero => rfl
    | succ k =>
      have hk : k < t.length := by
        simpa using Nat.lt_of_succ_lt_succ h
      have ht : t ≠ [] := by
        intro he
        rw [he] at hk
        simp at hk
      have hcons : (c :: t).getLast? = t.getLast? := by
        cases t with
        | nil => exact absurd rfl ht
        | cons b r => simp [List.getLast?_cons_cons]
      rw [List.drop_succ_cons, ih k hk, hcons]

/-- Core specification of the trim loop, by induction on the fuel.  With
enough fuel the loop establishes the budget-or-singleton postcondition, only
ever removes elements after the head (the result is the head followed by a
suffix of the tail), and reports `true` exactly when something was removed. -/
theorem trimContextGo_spec (tok : Tokenizer) (tokenLimit : Nat) :
    ∀ (fuel : Nat) (messages : List ChatMessage) (b : Bool),
      messages.length ≤ fuel →
      (countTokens tok (trimContextGo tok tokenLimit fuel messages b).2 ≤ tokenLimit
        ∨ (trimContextGo tok tokenLimit fuel messages b).2.length ≤ 1)
      ∧ (∃ k, (trimContextGo tok tokenLimit fuel messages b).2
            = match messages with
              | [] => []
              | h :: t => h :: t.drop k)
      ∧ ((trimContextGo tok tokenLimit fuel messages b).1
            = (b || decide ((trimContextGo tok tokenLimit fuel messages b).2.length
                  < messages.length))) := by
  intro fuel
  induction fuel with
  | zero =>
    intro messages b h
    have hm : messages = [] := List.eq_nil_of_length_eq_zero (Nat.le_zero.mp h)
    subst hm
    refine ⟨Or.inl (Nat.zero_le _), ⟨0, rfl⟩, ?_⟩
    simp [trimContextGo]
  | succ fuel ih =>
    intro messages b h
    by_cases hg : tokenLimit < countTokens tok messages ∧ 1 < messages.length
    · have heq : trimContextGo tok tokenLimit (fuel + 1) messages b
          = trimContextGo tok tokenLimit fuel (messages.eraseIdx 1) true := by
        simp [trimContextGo, hg]
      obtain ⟨hd, a, t, hm⟩ : ∃ hd a t, messages = hd :: a :: t := by
        cases messages with
        | nil => simp at hg
        | cons hd rest =>
          cases rest with
          | nil => simp at hg
          | cons a t => exact ⟨hd, a, t, rfl⟩
      subst hm
      have herase : (hd :: a :: t).eraseIdx 1 = hd :: t := by
        simp [List.eraseIdx]
      have hlen : (hd :: t).length ≤ fuel := by
        simp only [List.length_cons] at h ⊢
        omega
      have := ih (hd :: t) true (by simpa [herase] using hlen)
      rw [heq, herase]
      refine ⟨this.1, ?_, ?_⟩
      · obtain ⟨k, hk⟩ := this.2.1
        exact ⟨k + 1, by simpa [List.drop_succ_cons] using hk⟩
      · obtain ⟨k, hk⟩ := this.2.1
        have hlt : (trimContextGo tok tokenLimit fuel (hd :: t) true).2.length
            < (hd :: a :: t).length := by
          rw [hk]
          simp only [List.length_cons, List.length_drop]
          omega
        rw [this.2.2, decide_eq_true hlt]
        simp
    · have heq : trimContextGo tok tokenLimit (fuel + 1) messages b = (b, messages) := by
        simp [trimContextGo, hg]
      rw [heq]
      constructor
      · rcases Decidable.not_and_iff_or_not.mp hg with hc | hl
        · exact Or.inl (Nat.le_of_not_lt hc)
        · exact Or.inr (Nat.le_of_not_lt hl)
      refine ⟨⟨0, ?_⟩, ?_⟩
      · cases messages <;> simp
      · simp

/-- The postcondition of `trimContext` in the form the claims use. -/
theorem trimContext_post (tok : Tokenizer) (tokenLimit : Nat)
    (messages : List ChatMessage) :
    countTokens tok (trimContext tok tokenLimit messages).2 ≤ tokenLimit
      ∨ (trimContext tok tokenLimit messages).2.length ≤ 1 :=
  (trimContextGo_spec tok tokenLimit messages.length messages false (Nat.le_refl _)).1

/-- Shape of the trim result: the head is kept, and the rest is a suffix of
the original tail. -/
theorem trimContext_shape (tok : Tokenizer) (tokenLimit : Nat)
    (messages : List ChatMessage) :
    ∃ k, (trimContext tok tokenLimit messages).2
      = match messages with
        | [] => []
        | h :: t => h :: t.drop k :=
  (trimContextGo_spec tok tokenLimit messages.length messages false (Nat.le_refl _)).2.1

/-- The `trimmed` flag is `true` exactly when the list shrank. -/
theorem trimContext_flag (tok : Tokenizer) (tokenLimit : Nat)
    (messages : List ChatMessage) :
    (trimContext tok tokenLimit messages).1
      = decide ((trimContext tok tokenLimit messages).2.length < messages.length) := by
  have := (trimContextGo_spec tok tokenLimit messages.length messages false (Nat.le_refl _)).2.2
  simpa [trimContext] using this

/-- A nonempty list stays nonempty through the trim loop. -/
theorem trimContext_ne_nil (tok : Tokenizer) (tokenLimit : Nat)
    (messages : List ChatMessage) (h : messages ≠ []) :
    (trimContext tok tokenLimit messages).2 ≠ [] := by
  obtain ⟨k, hk⟩ := trimContext_shape tok tokenLimit messages
  cases messages with
  | nil => exact absurd rfl h
  | cons hd t => simp [hk]

/-- A list already within budget is returned untouched with flag `false`. -/
theorem trimContext_noop (tok : Tokenizer) (tokenLimit : Nat)
    (messages : List ChatMessage)
    (h : countTokens tok messages ≤ tokenLimit ∨ messages.length ≤ 1) :
    trimContext tok tokenLimit messages = (false, messages) := by
  have hg : ¬ (tokenLimit < countTokens tok messages ∧ 1 < messages.length) := by
    rcases h with hc | hl
    · exact fun hx => absurd hc (Nat.not_le_of_lt hx.1)
    · exact fun hx => absurd hl (Nat.not_le_of_lt hx.2)
  unfold trimContext
  cases hlen : messages.length with
  | zero => simp [trimContextGo]
  | succ n => simp [trimContextGo, hg]

/-- Claim C1: `trimContext` is a total function of the message list (the loop
terminates and nothing can throw); afterwards either the total token count is
within the budget or exactly one message remains; only the message at index 1
is ever removed, so the result is the original head followed by a suffix of
the original tail; and the returned flag is `true` exactly when at least one
message was removed. -/
theorem trimContext_spec_c1 (tok : Tokenizer) (tokenLimit : Nat)
    (messages : List ChatMessage) :
    (countTokens tok (trimContext tok tokenLimit messages).2 ≤ tokenLimit
      ∨ (trimContext tok tokenLimit messages).2.length = 1)
    ∧ (∃ k, (trimContext tok tokenLimit messages).2
        = match messages with
          | [] => []
          | h :: t => h :: t.drop k)
    ∧ ((trimContext tok tokenLimit messages).1 = true
        ↔ (trimContext tok tokenLimit messages).2.length < messages.length) := by
  refine ⟨?_, trimContext_shape tok tokenLimit messages, ?_⟩
  · rcases trimContext_post tok tokenLimit messages with hc | hl
    · exact Or.inl hc
    · cases messages with
      | nil =>
        obtain ⟨k, hk⟩ := trimContext_shape tok tokenLimit ([] : List ChatMessage)
        left
        rw [hk]
        exact Nat.zero_le _
      | cons hd t =>
        obtain ⟨k, hk⟩ := trimContext_shape tok tokenLimit (hd :: t)
        right
        rw [hk] at hl ⊢
        simp only [List.length_cons] at hl ⊢
        omega
  · rw [trimContext_flag tok tokenLimit messages]
    exact decide_eq_true_iff

/-- Claim C8: `trimContext` is idempotent — running it again on its own
output removes nothing and returns `false`. -/
theorem trimContext_idempotent_c8 (tok : Tokenizer) (tokenLimit : Nat)
    (messages : List ChatMessage) :
    trimContext tok tokenLimit (trimContext tok tokenLimit messages).2
      = (false, (trimContext tok tokenLimit messages).2) :=
  trimContext_noop tok tokenLimit _ (trimContext_post tok tokenLimit messages)

/-- A list whose `head?` is `some x` is `x` consed onto some tail. -/
theorem head?_some_cons {l : List ChatMessage} {x : ChatMessage}
    (h : l.head? = some x) : ∃ t, l = x :: t := by
  cases l with
  | nil => simp at h
  | cons a t =>
    simp only [List.head?_cons, Option.some.injEq] at h
    exact ⟨t, by rw [h]⟩

/-- `ensureConversation` returns a nonempty, system-headed conversation and
preserves the store invariant. -/
theorem ensureConversation_spec (systemPrompt : String) (s : Store)
    (conversationId : String) (h : storeInv systemPrompt s) :
    (1 ≤ (ensureConversation systemPrompt s conversationId).1.length
      ∧ (ensureConversation systemPrompt s conversationId).1.head?
          = some (systemMessage systemPrompt))
    ∧ storeInv systemPrompt (ensureConversation systemPrompt s conversationId).2 := by
  unfold ensureConversation
  cases hs : s conversationId with
  | some existing =>
    exact ⟨h conversationId existing hs, h⟩
  | none =>
    refine ⟨⟨by simp, by simp⟩, ?_⟩
    intro j l hj
    by_cases hji : j = conversationId
    · subst hji
      simp only [storeSet, eq_self_iff_true, if_true, Option.some.injEq] at hj
      subst hj
      simp
    · simp only [storeSet, if_neg hji] at hj
      exact h j l hj

/-- Every store operation preserves the invariant. -/
theorem storeInv_applyOp (tok : Tokenizer) (tokenLimit : Nat)
    (systemPrompt : String) (s : Store) (h : storeInv systemPrompt s)
    (op : HistoryOp) : storeInv systemPrompt (applyOp tok tokenLimit systemPrompt s op) := by
  cases op with
  | getMessages id => exact (ensureConversation_spec systemPrompt s id h).2
  | addMessage id m =>
    have hs := ensureConversation_spec systemPrompt s id h
    obtain ⟨t, ht⟩ := head?_some_cons hs.1.2
    intro j l hj
    simp only [applyOp] at hj
    by_cases hji : j = id
    · subst hji
      simp only [storeSet, eq_self_iff_true, if_true, Option.some.injEq] at hj
      subst hj
      rw [ht]
      simp
    · simp only [storeSet, if_neg hji] at hj
      exact hs.2 j l hj
  | trimConversation id =>
    have hs := ensureConversation_spec systemPrompt s id h
    obtain ⟨t, ht⟩ := head?_some_cons hs.1.2
    obtain ⟨k, hk⟩ :=
      trimContext_shape tok tokenLimit (ensureConversation systemPrompt s id).1
    rw [ht] at hk
    intro j l hj
    simp only [applyOp] at hj
    by_cases hji : j = id
    · subst hji
      simp only [storeSet, eq_self_iff_true, if_true, Option.some.injEq] at hj
      rw [← hj, ht, hk]
      simp
    · simp only [storeSet, if_neg hji] at hj
      exact hs.2 j l hj
  | resetConversation id =>
    intro j l hj
    by_cases hji : j = id
    · subst hji
      simp only [applyOp, storeSet, eq_self_iff_true, if_true, Option.some.injEq] at hj
      subst hj
      simp
    · simp only [applyOp, storeSet, if_neg hji] at hj
      exact h j l hj

/-- The invariant holds after any finite run of store operations. -/
theorem storeInv_runOps (tok : Tokenizer) (tokenLimit : Nat)
    (systemPrompt : String) :
    ∀ (ops : List HistoryOp) (s : Store), storeInv systemPrompt s →
      storeInv systemPrompt (ops.foldl (applyOp tok tokenLimit systemPrompt) s) := by
  intro ops
  induction ops with
  | nil => intro s h; exact h
  | cons op rest ih =>
    intro s h
    exact ih _ (storeInv_applyOp tok tokenLimit systemPrompt s h op)

/-- Claim C2: after any finite sequence of `getMessages` / `addMessage` /
`trimContext` / `resetConversation` operations starting from the empty store,
the conversation returned for any id is nonempty and its element at index 0
is the system-prompt message, whose role is `system`. -/
theorem historyStore_invariant_c2 (tok : Tokenizer) (tokenLimit : Nat)
    (systemPrompt : String) (ops : List HistoryOp) (conversationId : String) :
    1 ≤ (ensureConversation systemPrompt
          (runOps tok tokenLimit systemPrompt ops) conversationId).1.length
    ∧ (ensureConversation systemPrompt
          (runOps tok tokenLimit systemPrompt ops) conversationId).1.head?
        = some (systemMessage systemPrompt)
    ∧ ((ensureConversation systemPrompt
          (runOps tok tokenLimit systemPrompt ops) conversationId).1.head?.map
            ChatMessage.role = some Role.system) := by
  have hinv : storeInv systemPrompt (runOps tok tokenLimit systemPrompt ops) := by
    apply storeInv_runOps
    intro id l hl
    simp [emptyStore] at hl
  have hs := ensureConversation_spec systemPrompt _ conversationId hinv
  refine ⟨hs.1.1, hs.1.2, ?_⟩
  rw [hs.1.2]
  simp [systemMessage]

/-- Claim C7: a link target that trims to the empty string, to `#`, or to
anything starting with `#` is resolved by popping the next candidate URL off
the queue (head consumed, tail remains — uniformly `(q.head?, q.tail)`, so an
empty queue fails the resolution and each candidate is consumed at most
once); concretely, `Hi [Label](#)!` with the single candidate source
`https://x.test/a` rewrites to contain `Label\nhttps://x.test/a` literally,
and with an empty queue `[Label](#)` rewrites to the bare trimmed label. -/
theorem resolveUrl_placeholder_pop_c7 (link : String) (q : List String)
    (h : jsTrim link = "" ∨ jsTrim link = "#" ∨ startsWithStr "#" (jsTrim link) = true) :
    resolveUrl link q = (q.head?, q.tail)
    ∧ normalizeAssistantReply "Hi [Label](#)!" [⟨"t", some "https://x.test/a"⟩]
        = "Hi Label\nhttps://x.test/a!"
    ∧ normalizeAssistantReply "[Label](#)" [] = "Label" := by
  refine ⟨?_, by decide, by decide⟩
  unfold resolveUrl
  rcases h with h | h | h <;> simp only [h] <;> cases q <;> simp

/-- Witness for C7: the placeholder target `#` pops the single queued
candidate. -/
theorem resolveUrl_placeholder_pop_c7_witness :
    resolveUrl "#" ["https://u.test/b"] = (some "https://u.test/b", []) :=
  (resolveUrl_placeholder_pop_c7 "#" ["https://u.test/b"]
    (Or.inr (Or.inl (by decide)))).1

/-- A null document does not count as usable. -/
theorem usableDocCount_cons_none (rest : List (Option String)) :
    usableDocCount (none :: rest) = usableDocCount rest := by
  simp [usableDocCount, List.filter_cons]

/-- An empty document does not count as usable. -/
theorem usableDocCount_cons_empty (rest : List (Option String)) :
    usableDocCount (some "" :: rest) = usableDocCount rest := by
  simp [usableDocCount, List.filter_cons]

/-- A nonempty document counts as usable. -/
theorem usableDocCount_cons_some (d : String) (hd : ¬ d = "")
    (rest : List (Option String)) :
    usableDocCount (some d :: rest) = usableDocCount rest + 1 := by
  have hb : (d == "") = false := by simpa using hd
  simp [usableDocCount, List.filter_cons, hb]

/-- The rendered-entry list has one line per usable document. -/
theorem buildEntriesGo_length (limit : Nat) (metadatas : List (Option Metadata))
    (distances : List (Option String)) :
    ∀ (i : Nat) (docs : List (Option String)),
      (buildEntriesGo limit metadatas distances i docs).1.length = usableDocCount docs := by
  intro i docs
  induction docs generalizing i with
  | nil => rfl
  | cons doc rest ih =>
    cases doc with
    | none =>
      rw [usableDocCount_cons_none]
      exact ih (i + 1)
    | some d =>
      by_cases hd : d = ""
      · subst hd
        rw [usableDocCount_cons_empty]
        exact ih (i + 1)
      · rw [usableDocCount_cons_some d hd]
        simp only [buildEntriesGo, if_neg hd, List.length_cons]
        rw [ih (i + 1)]

/-- Claim C3: `buildKnowledgeContext` is a total function of its awaited
collaborators (it never propagates an exception), and it returns `none`
whenever the embedding computation failed, whenever the vector-store query
itself threw, and whenever zero usable (non-null, nonempty) documents came
back. -/
theorem buildKnowledgeContext_degraded_null_c3
    (chromaMaxResults chromaMaxCharacters : Nat) (collection : Option Unit)
    (embedResult : Except String (List (List Int)))
    (queryResult : Except String QueryResult) :
    (∀ e, embedResult = Except.error e →
      buildKnowledgeContext chromaMaxResults chromaMaxCharacters collection
        embedResult queryResult = none)
    ∧ (∀ e, queryResult = Except.error e →
      buildKnowledgeContext chromaMaxResults chromaMaxCharacters collection
        embedResult queryResult = none)
    ∧ (∀ qr, queryResult = Except.ok qr → usableDocCount qr.documents = 0 →
      buildKnowledgeContext chromaMaxResults chromaMaxCharacters collection
        embedResult queryResult = none) := by
  refine ⟨?_, ?_, ?_⟩
  · intro e he
    subst he
    cases collection <;> simp [buildKnowledgeContext]
  · intro e he
    subst he
    cases collection with
    | none => rfl
    | some u =>
      cases embedResult with
      | error _ => rfl
      | ok embs =>
        by_cases hl : embs.length = 0 <;> simp [buildKnowledgeContext, hl]
  · intro qr hq hu
    subst hq
    cases collection with
    | none => rfl
    | some u =>
      cases embedResult with
      | error _ => rfl
      | ok embs =>
        by_cases hl : embs.length = 0
        · simp [buildKnowledgeContext, hl]
        · have hlen := buildEntriesGo_length
            (max 200 (chromaMaxCharacters / max 1 chromaMaxResults))
            qr.metadatas qr.distances 0 qr.documents
          simp [buildKnowledgeContext, hl, hlen, hu]

/-- Witness for C3: an embedding failure yields `none`. -/
theorem buildKnowledgeContext_degraded_null_c3_witness :
    buildKnowledgeContext 5 1500 (some ()) (Except.error "boom")
      (Except.ok { documents := [], metadatas := [], distances := [] }) = none :=
  (buildKnowledgeContext_degraded_null_c3 5 1500 (some ()) (Except.error "boom")
    (Except.ok { documents := [], metadatas := [], distances := [] })).1 "boom" rfl

/-- The rendered entries are exactly the specification rendering: body kept
whole within the per-document limit, otherwise cut with an ellipsis. -/
theorem buildEntriesGo_eq_specEntries (limit : Nat)
    (metadatas : List (Option Metadata)) (distances : List (Option String)) :
    ∀ (i : Nat) (docs : List (Option String)),
      (buildEntriesGo limit metadatas distances i docs).1
        = specEntriesFrom limit metadatas distances i docs := by
  intro i docs
  induction docs generalizing i with
  | nil => rfl
  | cons doc rest ih =>
    cases doc with
    | none => simp [buildEntriesGo, specEntriesFrom, ih (i + 1)]
    | some d =>
      by_cases hd : d = ""
      · simp [buildEntriesGo, specEntriesFrom, hd, ih (i + 1)]
      · simp [buildEntriesGo, specEntriesFrom, hd, ih (i + 1), truncate]

/-- Claim C9: with K the configured result count (at least 1), the knowledge
context renders every usable document body through `truncate` at the limit
`max 200 (floor(maxCharacters / K))`: the message text is exactly the
specification rendering at that limit, a body within the limit is kept
unchanged, and a longer body is cut to `limit - 3` characters with the
ellipsis marker appended, making the rendered body exactly `limit`
characters long. -/
theorem truncate_per_document_c9 (chromaMaxResults chromaMaxCharacters : Nat)
    (hK : 1 ≤ chromaMaxResults) (d : String) (collection : Option Unit)
    (embedResult : Except String (List (List Int))) (qr : QueryResult)
    (ctx : KnowledgeContext)
    (hres : buildKnowledgeContext chromaMaxResults chromaMaxCharacters collection
        embedResult (Except.ok qr) = some ctx) :
    ctx.message.content
      = MsgContent.str ("Knowledge base context:\n" ++ String.intercalate "\n"
          (specEntriesFrom (max 200 (chromaMaxCharacters / chromaMaxResults))
            qr.metadatas qr.distances 0 qr.documents))
    ∧ (d.length ≤ max 200 (chromaMaxCharacters / chromaMaxResults) →
        truncate d (max 200 (chromaMaxCharacters / chromaMaxResults)) = d)
    ∧ (max 200 (chromaMaxCharacters / chromaMaxResults) < d.length →
        truncate d (max 200 (chromaMaxCharacters / chromaMaxResults))
            = String.mk (d.toList.take
                (max 200 (chromaMaxCharacters / chromaMaxResults) - 3)) ++ "..."
          ∧ (truncate d (max 200 (chromaMaxCharacters / chromaMaxResults))).length
            = max 200 (chromaMaxCharacters / chromaMaxResults)) := by
  have hmax : max 1 chromaMaxResults = chromaMaxResults := Nat.max_eq_right hK
  refine ⟨?_, ?_, ?_⟩
  · cases collection with
    | none => simp [buildKnowledgeContext] at hres
    | some u =>
      cases embedResult with
      | error e => simp [buildKnowledgeContext] at hres
      | ok embs =>
        by_cases hl : embs.length = 0
        · simp [buildKnowledgeContext, hl] at hres
        · by_cases hb : (buildEntriesGo
              (max 200 (chromaMaxCharacters / max 1 chromaMaxResults))
              qr.metadatas qr.distances 0 qr.documents).1.length = 0
          · simp [buildKnowledgeContext, hl, hb] at hres
          · have hv : buildKnowledgeContext chromaMaxResults chromaMaxCharacters
                (some u) (Except.ok embs) (Except.ok qr)
                = some ⟨⟨Role.system, MsgContent.str ("Knowledge base context:\n"
                      ++ String.intercalate "\n" (buildEntriesGo
                        (max 200 (chromaMaxCharacters / max 1 chromaMaxResults))
                        qr.metadatas qr.distances 0 qr.documents).1)⟩,
                    (buildEntriesGo
                      (max 200 (chromaMaxCharacters / max 1 chromaMaxResults))
                      qr.metadatas qr.distances 0 qr.documents).2⟩ := by
              simp [buildKnowledgeContext, hl, hb]
            rw [hv] at hres
            have hctx := Option.some.inj hres
            rw [← hctx]
            simp [hmax, buildEntriesGo_eq_specEntries]
  · intro hle
    simp [truncate, hle]
  · intro hlt
    have hle : ¬ d.length ≤ max 200 (chromaMaxCharacters / chromaMaxResults) :=
      Nat.not_le_of_lt hlt
    constructor
    · simp [truncate, hle]
    · simp only [truncate, if_neg hle]
      have h3 : 3 ≤ max 200 (chromaMaxCharacters / chromaMaxResults) := by
        have : (200 : Nat) ≤ max 200 (chromaMaxCharacters / chromaMaxResults) :=
          Nat.le_max_left _ _
        omega
      have hdl : d.toList.length = d.length := rfl
      rw [String.length_append]
      have htake : (d.toList.take
          (max 200 (chromaMaxCharacters / chromaMaxResults) - 3)).length
          = max 200 (chromaMaxCharacters / chromaMaxResults) - 3 := by
        rw [List.length_take]
        omega
      have hmk : (String.mk (d.toList.take
          (max 200 (chromaMaxCharacters / chromaMaxResults) - 3))).length
          = (d.toList.take (max 200 (chromaMaxCharacters / chromaMaxResults) - 3)).length := rfl
      rw [hmk, htake]
      have hdots : ("..." : String).length = 3 := rfl
      rw [hdots]
      omega

/-- Witness for C9: a short body at the default-free limit is unchanged. -/
theorem truncate_per_document_c9_witness :
    truncate "abc" (max 200 (0 / 1)) = "abc" :=
  (truncate_per_document_c9 1 0 (by decide) "abc" (some ()) (Except.ok [[1]])
      ⟨[some "ab"], [], []⟩
      ⟨⟨Role.system,
          MsgContent.str "Knowledge base context:\n- (snippet-1 | source: unknown) ab"⟩,
        [⟨"snippet-1", some "unknown"⟩]⟩
      (by decide)).2.1 (by decide)

/-- Erasing at the insertion index undoes a splice insertion. -/
theorem eraseIdx_spliceInsert (x : ChatMessage) :
    ∀ (n : Nat) (l : List ChatMessage), n ≤ l.length →
      (spliceInsert x n l).eraseIdx n = l := by
  intro n
  induction n with
  | zero => intro l h; rfl
  | succ n ih =>
    intro l h
    cases l with
    | nil => simp at h
    | cons c t =>
      show c :: (spliceInsert x n t).eraseIdx n = c :: t
      rw [ih t (Nat.le_of_succ_le_succ h)]

/-- Splice insertion grows the list by one. -/
theorem spliceInsert_length (x : ChatMessage) :
    ∀ (n : Nat) (l : List ChatMessage), n ≤ l.length →
      (spliceInsert x n l).length = l.length + 1 := by
  intro n
  induction n with
  | zero => intro l h; rfl
  | succ n ih =>
    intro l h
    cases l with
    | nil => simp at h
    | cons c t =>
      show (c :: spliceInsert x n t).length = (c :: t).length + 1
      simp [ih t (Nat.le_of_succ_le_succ h)]

/-- The inserted element sits at the insertion index. -/
theorem spliceInsert_getElem (x : ChatMessage) :
    ∀ (n : Nat) (l : List ChatMessage), n ≤ l.length →
      (spliceInsert x n l)[n]? = some x := by
  intro n
  induction n with
  | zero => intro l h; simp [spliceInsert]
  | succ n ih =>
    intro l h
    cases l with
    | nil => simp at h
    | cons c t =>
      show (c :: spliceInsert x n t)[n + 1]? = some x
      simpa using ih t (Nat.le_of_succ_le_succ h)

/-- Splice insertion never empties a list. -/
theorem spliceInsert_ne_nil (x : ChatMessage) (n : Nat) (l : List ChatMessage) :
    spliceInsert x n l ≠ [] := by
  cases n with
  | zero => simp [spliceInsert]
  | succ m =>
    cases l with
    | nil => simp [spliceInsert]
    | cons c t => simp [spliceInsert]

/-- `getLast?` ignores a cons onto a nonempty list. -/
theorem getLast?_cons_of_ne_nil {α : Type} {c : α} {l : List α} (h : l ≠ []) :
    (c :: l).getLast? = l.getLast? := by
  cases l with
  | nil => exact absurd rfl h
  | cons b r => simp [List.getLast?_cons_cons]

/-- Inserting strictly before the end preserves the last element. -/
theorem spliceInsert_getLast (x : ChatMessage) :
    ∀ (n : Nat) (l : List ChatMessage), n < l.length →
      (spliceInsert x n l).getLast? = l.getLast? := by
  intro n
  induction n with
  | zero =>
    intro l h
    cases l with
    | nil => simp at h
    | cons c t =>
      show (x :: c :: t).getLast? = (c :: t).getLast?
      simp [List.getLast?_cons_cons]
  | succ n ih =>
    intro l h
    cases l with
    | nil => simp at h
    | cons c t =>
      have hn : n < t.length := Nat.lt_of_succ_lt_succ h
      have htne : t ≠ [] := by
        intro he
        rw [he] at hn
        simp at hn
      show (c :: spliceInsert x n t).getLast? = (c :: t).getLast?
      rw [getLast?_cons_of_ne_nil (spliceInsert_ne_nil x n t),
        getLast?_cons_of_ne_nil htne]
      exact ih t hn

/-- When the trim of `l ++ [x]` keeps at least two messages, its last element
is still `x`. -/
theorem trimContext_getLast (tok : Tokenizer) (tokenLimit : Nat)
    (l : List ChatMessage) (x : ChatMessage)
    (h : 2 ≤ (trimContext tok tokenLimit (l ++ [x])).2.length) :
    (trimContext tok tokenLimit (l ++ [x])).2.getLast? = some x := by
  obtain ⟨k, hk⟩ := trimContext_shape tok tokenLimit (l ++ [x])
  cases l with
  | nil =>
    have hk2 : (trimContext tok tokenLimit ([] ++ [x])).2 = [x] := by
      have : (trimContext tok tokenLimit ([x])).2 = x :: List.drop k [] := hk
      simpa using this
    rw [hk2] at h
    simp at h
  | cons c t =>
    have hk2 : (trimContext tok tokenLimit ((c :: t) ++ [x])).2
        = c :: (t ++ [x]).drop k := hk
    rw [hk2] at h ⊢
    simp only [List.length_cons] at h
    have hdrop_ne : (t ++ [x]).drop k ≠ [] := by
      intro he
      rw [he] at h
      simp at h
    have hklt : k < (t ++ [x]).length := by
      by_contra hge
      rw [List.drop_eq_nil_of_le (Nat.le_of_not_lt hge)] at hdrop_ne
      exact hdrop_ne rfl
    rw [getLast?_cons_of_ne_nil hdrop_ne, getLast?_drop_of_lt _ k hklt]
    simp

/-- Claim C5: when the spliced request set exceeds the token budget,
`applyKnowledgeContext` removes exactly the knowledge message — leaving the
request set exactly as it was, every other message unchanged and in order —
and reports the knowledge as not applied; nothing is thrown (the model is a
total function). -/
theorem applyKnowledgeContext_drop_c5 (tok : Tokenizer) (tokenLimit : Nat)
    (requestMessages : List ChatMessage) (k : KnowledgeContext)
    (h : tokenLimit < countTokens tok
        (spliceInsert k.message (requestMessages.length - 1) requestMessages)) :
    applyKnowledgeContext tok tokenLimit requestMessages (some k)
      = (requestMessages, false) := by
  have he := eraseIdx_spliceInsert k.message (requestMessages.length - 1)
    requestMessages (Nat.sub_le _ _)
  simp [applyKnowledgeContext, h, he]

/-- Witness for C5: a tiny budget forces the knowledge block to be dropped,
restoring the original request set. -/
theorem applyKnowledgeContext_drop_c5_witness :
    applyKnowledgeContext (fun s => s.length) 0 [⟨Role.user, MsgContent.str "m"⟩]
      (some ⟨⟨Role.system, MsgContent.str "kkk"⟩, []⟩)
      = ([⟨Role.user, MsgContent.str "m"⟩], false) :=
  applyKnowledgeContext_drop_c5 (fun s => s.length) 0 [⟨Role.user, MsgContent.str "m"⟩]
    ⟨⟨Role.system, MsgContent.str "kkk"⟩, []⟩ (by decide)

/-- The request-local snapshot of the outcome is the pre-trimmed history. -/
theorem generateReply_requestMessages_eq (tok : Tokenizer) (tokenLimit : Nat)
    (stored0 : List ChatMessage) (message : String)
    (knowledgeContext : Option KnowledgeContext)
    (completion : Except String CompletionResponse) :
    (generateReply tok tokenLimit stored0 message knowledgeContext completion).requestMessages
      = storedAfterUser tok tokenLimit stored0 message := by
  cases completion with
  | error e => rfl
  | ok response =>
    cases hec : extractContent response with
    | none => simp [generateReply, hec]
    | some content => simp [generateReply, hec]

/-- The final request set of the outcome is the trimmed spliced set. -/
theorem generateReply_finalRequest_eq (tok : Tokenizer) (tokenLimit : Nat)
    (stored0 : List ChatMessage) (message : String)
    (knowledgeContext : Option KnowledgeContext)
    (completion : Except String CompletionResponse) :
    (generateReply tok tokenLimit stored0 message knowledgeContext completion).finalRequest
      = (trimContext tok tokenLimit (applyKnowledgeContext tok tokenLimit
          (storedAfterUser tok tokenLimit stored0 message) knowledgeContext).1).2 := by
  cases completion with
  | error e => rfl
  | ok response =>
    cases hec : extractContent response with
    | none => simp [generateReply, hec]
    | some content => simp [generateReply, hec]

/-- The verified `knowledgeApplied` flag of the outcome. -/
theorem generateReply_knowledgeApplied_eq (tok : Tokenizer) (tokenLimit : Nat)
    (stored0 : List ChatMessage) (message : String)
    (knowledgeContext : Option KnowledgeContext)
    (completion : Except String CompletionResponse) :
    (generateReply tok tokenLimit stored0 message knowledgeContext completion).knowledgeApplied
      = ((applyKnowledgeContext tok tokenLimit
            (storedAfterUser tok tokenLimit stored0 message) knowledgeContext).2
          && (match knowledgeContext with
              | some k => ((trimContext tok tokenLimit (applyKnowledgeContext tok tokenLimit
                  (storedAfterUser tok tokenLimit stored0 message) knowledgeContext).1).2).contains
                    k.message
              | none => false)) := by
  cases completion with
  | error e => rfl
  | ok response =>
    cases hec : extractContent response with
    | none => simp [generateReply, hec]
    | some content => simp [generateReply, hec]

/-- The conversation after the user-message append is never empty. -/
theorem storedAfterUser_ne_nil (tok : Tokenizer) (tokenLimit : Nat)
    (stored0 : List ChatMessage) (message : String) :
    storedAfterUser tok tokenLimit stored0 message ≠ [] :=
  trimContext_ne_nil tok tokenLimit (stored0 ++ [userMessage message]) (by simp)

/-- Claim C4 counterexample: with tokenizer `length`, budget 5, stored
conversation `[system "abc"]` and user message `"uuuuuu"`, the pre-trim
evicts the just-appended user message; the knowledge block still fits and is
reported applied, yet the final request set ends in the system prompt, not in
a user message — refuting `immediately before the trailing user message`. -/
theorem generateReply_knowledge_position_c4_cex :
    ((generateReply (fun s => s.length) 5 [⟨Role.system, MsgContent.str "abc"⟩]
        "uuuuuu" (some ⟨⟨Role.system, MsgContent.str "x"⟩, []⟩)
        (Except.ok ⟨[⟨⟨some "ok"⟩⟩], some 3⟩)).knowledgeApplied = true)
    ∧ ((generateReply (fun s => s.length) 5 [⟨Role.system, MsgContent.str "abc"⟩]
        "uuuuuu" (some ⟨⟨Role.system, MsgContent.str "x"⟩, []⟩)
        (Except.ok ⟨[⟨⟨some "ok"⟩⟩], some 3⟩)).finalRequest.getLast?.map ChatMessage.role
          ≠ some Role.user)
    ∧ ((generateReply (fun s => s.length) 5 [⟨Role.system, MsgContent.str "abc"⟩]
        "uuuuuu" (some ⟨⟨Role.system, MsgContent.str "x"⟩, []⟩)
        (Except.ok ⟨[⟨⟨some "ok"⟩⟩], some 3⟩)).finalRequest.getLast?.map ChatMessage.role
          = some Role.system) := by
  decide

/-- Claim C4 (amended): whenever `generateReply` reports the knowledge as
applied, the knowledge system message occupies position `length - 2` of the
final request set, immediately before the final message; that final message
is the trailing user message whenever the request-local history kept at least
two messages (i.e. the pre-trim did not evict the user message). -/
theorem generateReply_knowledge_position_c4 (tok : Tokenizer) (tokenLimit : Nat)
    (stored0 : List ChatMessage) (message : String) (k : KnowledgeContext)
    (completion : Except String CompletionResponse)
    (h : (generateReply tok tokenLimit stored0 message (some k) completion).knowledgeApplied
        = true) :
    2 ≤ (generateReply tok tokenLimit stored0 message (some k) completion).finalRequest.length
    ∧ (generateReply tok tokenLimit stored0 message (some k) completion).finalRequest[
        (generateReply tok tokenLimit stored0 message (some k) completion).finalRequest.length
          - 2]? = some k.message
    ∧ (2 ≤ (generateReply tok tokenLimit stored0 message (some k) completion).requestMessages.length →
        (generateReply tok tokenLimit stored0 message (some k) completion).finalRequest.getLast?
          = some (userMessage message)) := by
  rw [generateReply_knowledgeApplied_eq] at h
  have happ2 : (applyKnowledgeContext tok tokenLimit
      (storedAfterUser tok tokenLimit stored0 message) (some k)).2 = true :=
    ((Bool.and_eq_true _ _).mp h).1
  by_cases hc : tokenLimit < countTokens tok
      (spliceInsert k.message ((storedAfterUser tok tokenLimit stored0 message).length - 1)
        (storedAfterUser tok tokenLimit stored0 message))
  · have : (applyKnowledgeContext tok tokenLimit
        (storedAfterUser tok tokenLimit stored0 message) (some k)).2 = false := by
      simp [applyKnowledgeContext, hc]
    rw [this] at happ2
    cases happ2
  · have happl : applyKnowledgeContext tok tokenLimit
        (storedAfterUser tok tokenLimit stored0 message) (some k)
        = (spliceInsert k.message
            ((storedAfterUser tok tokenLimit stored0 message).length - 1)
            (storedAfterUser tok tokenLimit stored0 message), true) := by
      simp [applyKnowledgeContext, hc]
    have hno : trimContext tok tokenLimit
        (spliceInsert k.message
          ((storedAfterUser tok tokenLimit stored0 message).length - 1)
          (storedAfterUser tok tokenLimit stored0 message))
        = (false, spliceInsert k.message
            ((storedAfterUser tok tokenLimit stored0 message).length - 1)
            (storedAfterUser tok tokenLimit stored0 message)) :=
      trimContext_noop tok tokenLimit _ (Or.inl (Nat.le_of_not_lt hc))
    have hfr : (generateReply tok tokenLimit stored0 message (some k) completion).finalRequest
        = spliceInsert k.message
            ((storedAfterUser tok tokenLimit stored0 message).length - 1)
            (storedAfterUser tok tokenLimit stored0 message) := by
      rw [generateReply_finalRequest_eq, happl, hno]
    have hRMlen : 1 ≤ (storedAfterUser tok tokenLimit stored0 message).length :=
      List.length_pos.mpr (storedAfterUser_ne_nil tok tokenLimit stored0 message)
    have hn : (storedAfterUser tok tokenLimit stored0 message).length - 1
        ≤ (storedAfterUser tok tokenLimit stored0 message).length := Nat.sub_le _ _
    have hslen := spliceInsert_length k.message
      ((storedAfterUser tok tokenLimit stored0 message).length - 1)
      (storedAfterUser tok tokenLimit stored0 message) hn
    refine ⟨?_, ?_, ?_⟩
    · rw [hfr, hslen]
      omega
    · rw [hfr, hslen]
      have hidx : (storedAfterUser tok tokenLimit stored0 message).length + 1 - 2
          = (storedAfterUser tok tokenLimit stored0 message).length - 1 := by omega
      rw [hidx]
      exact spliceInsert_getElem k.message _ _ hn
    · intro hge
      rw [generateReply_requestMessages_eq] at hge
      have hlast : (storedAfterUser tok tokenLimit stored0 message).getLast?
          = some (userMessage message) :=
        trimContext_getLast tok tokenLimit stored0 (userMessage message) hge
      rw [hfr, spliceInsert_getLast k.message _ _ (by omega), hlast]

/-- Witness for C4 (amended): a small conversation where the knowledge block
fits and the user message survives the pre-trim. -/
theorem generateReply_knowledge_position_c4_witness :
    2 ≤ (generateReply (fun s => s.length) 100 [⟨Role.system, MsgContent.str "a"⟩] "bb"
        (some ⟨⟨Role.system, MsgContent.str "c"⟩, []⟩)
        (Except.ok ⟨[⟨⟨some "ok"⟩⟩], none⟩)).finalRequest.length :=
  (generateReply_knowledge_position_c4 (fun s => s.length) 100
    [⟨Role.system, MsgContent.str "a"⟩] "bb" ⟨⟨Role.system, MsgContent.str "c"⟩, []⟩
    (Except.ok ⟨[⟨⟨some "ok"⟩⟩], none⟩) (by decide)).1

/-- Claim C6 counterexample: same eviction corner with a failing completion
call: the error is re-raised and no assistant message is stored, but the
stored conversation ends in the system prompt — the appended user message was
evicted by the pre-trim, refuting `still contains the user message as its
last element`. -/
theorem generateReply_error_path_c6_cex :
    ((generateReply (fun s => s.length) 5 [⟨Role.system, MsgContent.str "abc"⟩]
        "uuuuuu" none (Except.error "boom")).result = Except.error "boom")
    ∧ ((generateReply (fun s => s.length) 5 [⟨Role.system, MsgContent.str "abc"⟩]
        "uuuuuu" none (Except.error "boom")).stored.getLast?.map ChatMessage.role
          ≠ some Role.user)
    ∧ ((generateReply (fun s => s.length) 5 [⟨Role.system, MsgContent.str "abc"⟩]
        "uuuuuu" none (Except.error "boom")).stored
          = [⟨Role.system, MsgContent.str "abc"⟩]) := by
  decide

/-- Claim C6 (amended): when the completion call fails, `generateReply`
re-raises the same error; the stored conversation is exactly the
user-appended, pre-trimmed history — a sublist of the old history plus the
user message, so no assistant message was appended for the turn — and its
last element is the appended user message whenever the pre-trim left at least
two messages (i.e. did not evict it). -/
theorem generateReply_error_path_c6 (tok : Tokenizer) (tokenLimit : Nat)
    (stored0 : List ChatMessage) (message : String)
    (knowledgeContext : Option KnowledgeContext) (e : String)
    (completion : Except String CompletionResponse)
    (hcomp : completion = Except.error e) :
    (generateReply tok tokenLimit stored0 message knowledgeContext completion).result
        = Except.error e
    ∧ (generateReply tok tokenLimit stored0 message knowledgeContext completion).stored
        = (trimContext tok tokenLimit (stored0 ++ [userMessage message])).2
    ∧ List.Sublist
        (generateReply tok tokenLimit stored0 message knowledgeContext completion).stored
        (stored0 ++ [userMessage message])
    ∧ (2 ≤ (generateReply tok tokenLimit stored0 message knowledgeContext completion).stored.length →
        (generateReply tok tokenLimit stored0 message knowledgeContext completion).stored.getLast?
          = some (userMessage message)) := by
  subst hcomp
  refine ⟨rfl, rfl, ?_, ?_⟩
  · show List.Sublist
      (trimContext tok tokenLimit (stored0 ++ [userMessage message])).2
      (stored0 ++ [userMessage message])
    obtain ⟨k, hk⟩ := trimContext_shape tok tokenLimit (stored0 ++ [userMessage message])
    cases hl : stored0 ++ [userMessage message] with
    | nil => simp at hl
    | cons c t =>
      rw [hl] at hk
      rw [hk]
      show (c :: List.drop k t).Sublist (c :: t)
      exact List.Sublist.cons₂ c (List.drop_sublist k t)
  · intro h2
    exact trimContext_getLast tok tokenLimit stored0 (userMessage message) h2

/-- Witness for C6 (amended): a failing completion call on a small
conversation. -/
theorem generateReply_error_path_c6_witness :
    (generateReply (fun s => s.length) 100 [⟨Role.system, MsgContent.str "a"⟩] "b" none
        (Except.error "boom")).result = Except.error "boom" :=
  (generateReply_error_path_c6 (fun s => s.length) 100 [⟨Role.system, MsgContent.str "a"⟩]
    "b" none "boom" (Except.error "boom") rfl).1

/-- Claim C10: whenever `generateReply` returns successfully and the
assistant message survived the final trim (the stored conversation kept at
least two messages), the returned response text equals the content of the
last stored message — both are the same normalization of the completion
content. -/
theorem generateReply_response_stored_c10 (tok : Tokenizer) (tokenLimit : Nat)
    (stored0 : List ChatMessage) (message : String)
    (knowledgeContext : Option KnowledgeContext)
    (completion : Except String CompletionResponse) (r : GenOk)
    (h1 : (generateReply tok tokenLimit stored0 message knowledgeContext completion).result
        = Except.ok r)
    (h2 : 2 ≤ (generateReply tok tokenLimit stored0 message knowledgeContext completion).stored.length) :
    (generateReply tok tokenLimit stored0 message knowledgeContext completion).stored.getLast?
      = some { role := Role.assistant, content := MsgContent.str r.response } := by
  cases completion with
  | error e => simp [generateReply] at h1
  | ok response =>
    cases hec : extractContent response with
    | none => simp [generateReply, hec] at h1
    | some content =>
      simp only [generateReply, hec, Except.ok.injEq] at h1
      subst h1
      simp only [generateReply, hec] at h2 ⊢
      exact trimContext_getLast tok tokenLimit _ _ h2

/-- Witness for C10: a plain success turn whose stored conversation ends in
the normalized assistant message. -/
theorem generateReply_response_stored_c10_witness :
    (generateReply (fun s => s.length) 100 [⟨Role.system, MsgContent.str "a"⟩] "b" none
        (Except.ok ⟨[⟨⟨some "ok"⟩⟩], none⟩)).stored.getLast?
      = some ⟨Role.assistant, MsgContent.str (GenOk.response ⟨"ok", 4, none, 2, 1, 0, 1⟩)⟩ :=
  generateReply_response_stored_c10 (fun s => s.length) 100
    [⟨Role.system, MsgContent.str "a"⟩] "b" none (Except.ok ⟨[⟨⟨some "ok"⟩⟩], none⟩)
    ⟨"ok", 4, none, 2, 1, 0, 1⟩ (by decide) (by decide)

end Twilio
